import Mathlib

/-!
Verification of the `cli` package (`cli/blocks.py`): a shallow embedding of
the argument tokenizer (`ArgumentParser`), the command-descriptor ordinal
allocator (`Command.set_number`), the `Commandlet` wrapper with its arity and
keyword-argument checks, and the `Mode` dispatch machinery (`build_namespace`,
`lookup_command`, the main loop of `Mode.__call__`, `get_user_input`).
-/

/-! ### Characters

Quote characters are written via `Char.ofNat` (34 is the double quote,
39 is the single quote). -/

def dquote : Char := Char.ofNat 34

def squote : Char := Char.ofNat 39

/-- Python whitespace, as removed by `str.strip()`:
space, tab, newline, carriage return, vertical tab, form feed. -/
def isPySpace (c : Char) : Bool :=
  c = ' ' || c = Char.ofNat 9 || c = Char.ofNat 10 || c = Char.ofNat 13 ||
  c = Char.ofNat 11 || c = Char.ofNat 12

/-- `str.strip()` on a character list: drop leading and trailing whitespace. -/
def pyStrip (cs : List Char) : List Char :=
  ((cs.dropWhile isPySpace).reverse.dropWhile isPySpace).reverse

/-! ### ArgumentParser (`cli/blocks.py`, class `ArgumentParser`)

State fields of `ArgumentParser.__init__`: `tokens` is the constant delimiter
set `' "\'\n'` (modelled as `pytokens`), `curr_token` / `prev_token` track the
last two delimiters processed, `buffer` accumulates characters, `arguments`
the finalized tokens, `quote` the currently open quote character. -/

structure ArgumentParser where
  curr_token : Option Char
  prev_token : Option Char
  buffer : List Char
  arguments : List String
  quote : Option Char
deriving Repr, DecidableEq

/-- The delimiter set `self.tokens = ' "\'\n'`. -/
def pytokens : List Char := [' ', dquote, squote, Char.ofNat 10]

/-- `ArgumentParser.__init__`: fresh state. -/
def initArgumentParser : ArgumentParser :=
  { curr_token := none, prev_token := none, buffer := [], arguments := [], quote := none }

/-- `ArgumentParser.change_token`: shift `curr_token` into `prev_token`. -/
def change_token (st : ArgumentParser) (new_token : Char) : ArgumentParser :=
  { st with prev_token := st.curr_token, curr_token := some new_token }

/-- Python `c in '"\''` on the `prev_token` field (`None` is falsy). -/
def prevIsQuote : Option Char → Bool
  | some c => c = dquote || c = squote
  | none => false

/-- `ArgumentParser.process_token`: update delimiter tracking, then either
finalize the buffer (on space/newline; unconditionally when the previous
delimiter was a quote, otherwise only when non-empty) or toggle the quote
state (on a quote character). `flush_buffer` is inlined: it returns the
buffer and clears it. -/
def process_token (st : ArgumentParser) (symbol : Char) : ArgumentParser :=
  let st := change_token st symbol
  if symbol = ' ' || symbol = Char.ofNat 10 then
    if prevIsQuote st.prev_token then
      { st with buffer := [], arguments := st.arguments ++ [String.mk st.buffer] }
    else
      if st.buffer = [] then { st with buffer := [] }
      else { st with buffer := [], arguments := st.arguments ++ [String.mk st.buffer] }
  else if symbol = dquote || symbol = squote then
    if st.quote = none then { st with quote := some symbol }
    else { st with quote := none }
  else st

/-- Body of the `for symbol in argument_string.strip()` loop of
`ArgumentParser.__call__`: inside a quote, only the matching quote character
is a delimiter; outside, any character of `self.tokens` is. -/
def consume_symbol (st : ArgumentParser) (symbol : Char) : ArgumentParser :=
  match st.quote with
  | some q =>
      if symbol = q then process_token st symbol
      else { st with buffer := st.buffer ++ [symbol] }
  | none =>
      if symbol ∈ pytokens then process_token st symbol
      else { st with buffer := st.buffer ++ [symbol] }

/-- `ArgumentParser.__call__` on a given (possibly already used) state:
strip the input, run the loop, inject a final newline delimiter, and return
`tuple(self.arguments)` together with the mutated state. -/
def callArgumentParser (st : ArgumentParser) (argument_string : String) :
    List String × ArgumentParser :=
  let st := (pyStrip argument_string.toList).foldl consume_symbol st
  let st := process_token st (Char.ofNat 10)
  (st.arguments, st)

/-- `ArgumentParser()(argument_string)`: parsing with a fresh instance, as
`Mode.get_user_input` does on every input line. -/
def parseArguments (argument_string : String) : List String :=
  (callArgumentParser initArgumentParser argument_string).1

/-- The test vector of `test_blocks.py` (`TestArgumentParser.test_call__`),
built from character lists to splice in the single quotes. -/
def testInput : String :=
  String.mk (" test \"\" \"with space\"   ".toList ++ [squote] ++
    "with \"space and different\" quote".toList ++ [squote] ++ " case ".toList)

/-! ### Command descriptor ordinal allocation (`Command.set_number`)

`Command` keeps two class attributes: `number_free` (the next auto-assigned
ordinal) and `number_used` (the set of ordinals already taken, modelled as a
list used only through membership). `set_number` picks the requested or next
free ordinal and advances it past the used-set by linear probing. Note that
nothing in the source ever inserts into `number_used`. -/

/-- The `while True` probe loop of `Command.set_number`: increment `num`
until it is no longer in the used-set. -/
def set_number_loop (used : List Int) (num : Int) : Int :=
  if num ∈ used then set_number_loop used (num + 1) else num
termination_by used.countP (fun x => decide (num ≤ x))
decreasing_by
  rename_i h
  induction used with
  | nil => cases h
  | cons a l ih =>
    simp only [List.countP_cons]
    rcases List.mem_cons.mp h with rfl | hmem
    · have hle : l.countP (fun x => decide (num + 1 ≤ x)) ≤
          l.countP (fun x => decide (num ≤ x)) := by
        apply List.countP_mono_left
        intro x _ hx
        simp only [decide_eq_true_eq] at hx ⊢
        omega
      have h1 : (decide (num + 1 ≤ num) : Bool) = false := by simp
      have h2 : (decide (num ≤ num) : Bool) = true := by simp
      simp [h1, h2]
      omega
    · have hstrict := ih hmem
      have hhead : (if (decide (num + 1 ≤ a) : Bool) = true then 1 else 0) ≤
          (if (decide (num ≤ a) : Bool) = true then 1 else 0) := by
        by_cases hc : num + 1 ≤ a
        · have hc2 : num ≤ a := by omega
          simp [hc, hc2]
        · simp [hc]
      omega

/-- The class-level mutable state of `Command`. -/
structure CommandState where
  number_free : Int
  number_used : List Int
deriving Repr, DecidableEq

/-- The initial class attributes: `number_free = 0`, `number_used = set()`. -/
def initCommandState : CommandState := { number_free := 0, number_used := [] }

/-- `Command.set_number(number)`: when `number is None`, take `number_free`
and increment it; otherwise take the explicit number verbatim. Then probe
past the used-set. The source returns `num` without ever adding it to
`number_used`, which therefore stays unchanged. -/
def set_number (s : CommandState) (number : Option Int) : Int × CommandState :=
  match number with
  | none =>
      let num := s.number_free
      let s := { s with number_free := s.number_free + 1 }
      (set_number_loop s.number_used num, s)
  | some n => (set_number_loop s.number_used n, s)

/-- A sequence of `Command(...)` descriptor creations, threading the class
state; returns the ordinals assigned, in order. -/
def allocate_numbers (s : CommandState) : List (Option Int) → List Int × CommandState
  | [] => ([], s)
  | r :: rs =>
      let p := set_number s r
      let q := allocate_numbers p.2 rs
      (p.1 :: q.1, q.2)

/-! ### Commandlet (`cli/blocks.py`, class `Commandlet`)

The fields used by dispatch and validation. The help-rendering data
(`description`, `func_help`, `arguments_usage`, `arguments_help`, and the
class-level `command_width` / `arguments_width`) do not bear on any claim and
are omitted. -/

/-- The introspection data `Commandlet.__init__` reads off the wrapped
callable: `__code__.co_varnames` (parameter names first, locals after),
`__code__.co_argcount`, and the length of `__defaults__` (`none` models
`__defaults__ is None`). -/
structure PyFunc where
  varnames : List String
  argcount : Nat
  defaults : Option Nat
deriving Repr, DecidableEq

structure Commandlet where
  command : String
  number : Int
  arguments : List String
  arguments_max : Int
  arguments_min : Int
deriving Repr, DecidableEq

/-- `Commandlet.__init__`: `arguments` is the first `co_argcount` entries of
`co_varnames` (the declared parameters, receiver included);
`arguments_max = len(self.arguments)`; `arguments_min` subtracts the number
of default values when `__defaults__` is not `None`. -/
def mkCommandlet (command : String) (number : Int) (f : PyFunc) : Commandlet :=
  let arguments := f.varnames.take f.argcount
  { command := command
    number := number
    arguments := arguments
    arguments_max := (arguments.length : Int)
    arguments_min :=
      match f.defaults with
      | none => (arguments.length : Int)
      | some d => (arguments.length : Int) - d }

/-- Outcome of `Commandlet.__call__`: either the underlying callable's
result, or an `IncorrectArguments` exception carrying its message. -/
inductive CallResult (R : Type) where
  | ok (r : R)
  | incorrectArguments (msg : String)
deriving Repr, DecidableEq

/-- `Commandlet.__call__(*args, **kwargs)`: check the total passed count
against `arguments_max` and `arguments_min`, then check each keyword name
against `self.arguments` (the full parameter tuple, receiver included),
raising on the first name not found; only then call `self.func`, returning
its result unchanged. `f` stands for the wrapped callable; `kwargs` is an
ordered association list, matching insertion-ordered `dict` iteration. -/
def callCommandlet {V R : Type} (c : Commandlet) (f : List V → List (String × V) → R)
    (args : List V) (kwargs : List (String × V)) : CallResult R :=
  let arguments_passed : Int := args.length + kwargs.length
  if arguments_passed > c.arguments_max then
    CallResult.incorrectArguments "exceeded maximum number of arguments"
  else if arguments_passed < c.arguments_min then
    CallResult.incorrectArguments "not enough arguments"
  else
    match kwargs.find? (fun kv => !(c.arguments.contains kv.1)) with
    | some kv => CallResult.incorrectArguments ("wrong keyword argument: " ++ kv.1)
    | none => CallResult.ok (f args kwargs)

/-- The spec's receiver-excluded arity bounds (data model, §3): the code's
`arguments_max` / `arguments_min` count the receiver, because the `Mode`
loop invokes `command(self, *arguments)` with the receiver as an explicit
positional argument; the spec's `max_arity` / `min_arity` count only the
user-supplied arguments. -/
def max_arity (c : Commandlet) : Int := c.arguments_max - 1

def min_arity (c : Commandlet) : Int := c.arguments_min - 1

/-! ### Mode (`cli/blocks.py`, class `Mode`)

`build_namespace` walks `self.__class__` and recursively its `__bases__`,
collecting every `Commandlet` attribute not already present in the namespace
(membership via `Commandlet.__eq__`, which compares `command` names only). -/

/-- A class as `build_namespace` sees it: the `Commandlet` values of its own
`__dict__` in definition order, plus its `__bases__`. -/
inductive ClassTree where
  | node (own : List Commandlet) (bases : List ClassTree)

/-- Python `value not in namespace`, where list membership goes through
`Commandlet.__eq__` (name-only comparison). -/
def cmdIn (ns : List Commandlet) (v : Commandlet) : Bool :=
  ns.any (fun x => x.command = v.command)

/-- The `for key, value in cls.__dict__.items()` loop body of
`get_commandlets`: append each commandlet not already present. -/
def add_commandlets (ns : List Commandlet) (own : List Commandlet) : List Commandlet :=
  own.foldl (fun ns v => if cmdIn ns v then ns else ns ++ [v]) ns

mutual
/-- The recursive `get_commandlets(cls)` of `Mode.build_namespace`:
collect from the class dict, then recurse into each base. -/
def get_commandlets : ClassTree → List Commandlet → List Commandlet
  | ClassTree.node own bases, ns => get_commandlets_bases bases (add_commandlets ns own)

def get_commandlets_bases : List ClassTree → List Commandlet → List Commandlet
  | [], ns => ns
  | b :: bs, ns => get_commandlets_bases bs (get_commandlets b ns)
end

/-- `Mode.build_namespace`: start from an empty namespace at the instance's
own class. -/
def build_namespace (t : ClassTree) : List Commandlet := get_commandlets t []

mutual
/-- The flat walk order of `build_namespace` without de-duplication: own
class dict first, then each base subtree in order. -/
def walk_order : ClassTree → List Commandlet
  | ClassTree.node own bases => own ++ walk_order_bases bases

def walk_order_bases : List ClassTree → List Commandlet
  | [] => []
  | b :: bs => walk_order b ++ walk_order_bases bs
end

/-- `Mode.lookup_command`: first-match scan over the namespace; raise
`IncorrectCommand` carrying the typed text when nothing matches. -/
def lookup_command : List Commandlet → String → Except String Commandlet
  | [], command_input => Except.error command_input
  | c :: rest, command_input =>
      if c.command = command_input then Except.ok c else lookup_command rest command_input

/-- Python `str.split(' ')`: cut at every single space, keeping empty
pieces; the empty string yields one empty piece. -/
def pySplitSpace : List Char → List Char → List (List Char)
  | [], acc => [acc.reverse]
  | c :: cs, acc =>
      if c = ' ' then acc.reverse :: pySplitSpace cs []
      else pySplitSpace cs (c :: acc)

/-- The input-processing part of `Mode.get_user_input`: strip the line,
`split(' ')` it, take the head as the command name, re-join the rest with
single spaces and tokenize it with a fresh `ArgumentParser`. -/
def parse_user_input (line : String) : String × List String :=
  let user_input := pyStrip line.toList
  let parts := pySplitSpace user_input []
  let command_name := String.mk (parts.headD [])
  let arguments_string := String.mk (List.intercalate [' '] parts.tail)
  (command_name, parseArguments arguments_string)

/-- What the body of a wrapped command can do once actually invoked:
return normally, raise `StopIteration` (as `exit` does), or raise anything
else (not caught by the loop). -/
inductive FuncOutcome where
  | ret
  | raiseStopIteration
  | raiseOther
deriving Repr, DecidableEq

/-- Observable outcome of one iteration of the `while True` loop of
`Mode.__call__`: continue to the next prompt (with the diagnostics printed),
terminate via `break`, or let an uncaught exception propagate out. -/
inductive LoopStep where
  | continued (printed : List String)
  | halted
  | fatal
deriving Repr, DecidableEq

/-- Values flowing into `command(self, *arguments)`: the `Mode` receiver
and the parsed argument strings. -/
inductive PyVal where
  | mode
  | str (s : String)
deriving Repr, DecidableEq

/-- One iteration of the `while True` loop of `Mode.__call__` on an input
line: resolve the command name, invoke the commandlet with the receiver
plus the parsed arguments, and catch `IncorrectCommand`,
`IncorrectArguments` and `StopIteration` as the source does. `run` abstracts
the wrapped callable bodies. -/
def mode_iteration (ns : List Commandlet)
    (run : Commandlet → List String → FuncOutcome) (line : String) : LoopStep :=
  let p := parse_user_input line
  match lookup_command ns p.1 with
  | Except.error msg => LoopStep.continued ["Incorrect command: " ++ msg]
  | Except.ok command =>
      match callCommandlet command (fun _ _ => run command p.2)
          (PyVal.mode :: p.2.map PyVal.str) [] with
      | CallResult.incorrectArguments m =>
          LoopStep.continued ["Incorrect arguments passed: " ++ m]
      | CallResult.ok FuncOutcome.ret => LoopStep.continued []
      | CallResult.ok FuncOutcome.raiseStopIteration => LoopStep.halted
      | CallResult.ok FuncOutcome.raiseOther => LoopStep.fatal

/-- The built-in `help` command: `Command('Print this message', number=998)`
wrapping `help(self, command_name='')`; `co_varnames` also lists the local
`command` used in its body. -/
def helpCommandlet : Commandlet :=
  mkCommandlet "help" 998 { varnames := ["self", "command_name", "command"],
                            argcount := 2, defaults := some 1 }

/-- The built-in `exit` command: `Command(number='999')` wrapping
`exit(self)`. -/
def exitCommandlet : Commandlet :=
  mkCommandlet "exit" 999 { varnames := ["self"], argcount := 1, defaults := none }

/-- A bare `Mode` instance's class hierarchy: `Mode` (declaring `help` then
`exit`) with base `object` (no commandlets). -/
def modeClassTree : ClassTree :=
  ClassTree.node [helpCommandlet, exitCommandlet] [ClassTree.node [] []]

/-- The namespace a bare `Mode()` builds. -/
def defaultNamespace : List Commandlet := build_namespace modeClassTree

/-- A commandlet wrapped from a two-parameter method `f(self, x)`, used to
probe the keyword-argument validation. -/
def selfKwargCommandlet : Commandlet :=
  mkCommandlet "f" 0 { varnames := ["self", "x"], argcount := 2, defaults := none }

/-- A tokenizer state midway through a double-quoted `x`, with the quote
still open. -/
def argStateEx : ArgumentParser :=
  { curr_token := some dquote, prev_token := none, buffer := ['x'],
    arguments := [], quote := some dquote }

/-- A commandlet wrapped from a method `g(self, x, y=...)`: three declared
parameters, one carrying a default. -/
def exCommandlet : Commandlet :=
  mkCommandlet "g" 5 { varnames := ["self", "x", "y"], argcount := 3, defaults := some 1 }

/-! ### Relational semantics of the tokenizer loop

`SymbolStep` mirrors, branch by branch, the body of the
`for symbol in argument_string.strip()` loop of `ArgumentParser.__call__`;
`RunSteps` chains it over the input. Totality and determinism of the
tokenizer are proved against this relation. -/

inductive SymbolStep : ArgumentParser → Char → ArgumentParser → Prop where
  | quoteClose {st : ArgumentParser} {c : Char} (h : st.quote = some c) :
      SymbolStep st c (process_token st c)
  | quoteLiteral {st : ArgumentParser} {q c : Char} (h : st.quote = some q) (hne : c ≠ q) :
      SymbolStep st c { st with buffer := st.buffer ++ [c] }
  | delimiter {st : ArgumentParser} {c : Char} (h : st.quote = none) (hc : c ∈ pytokens) :
      SymbolStep st c (process_token st c)
  | plain {st : ArgumentParser} {c : Char} (h : st.quote = none) (hc : c ∉ pytokens) :
      SymbolStep st c { st with buffer := st.buffer ++ [c] }

inductive RunSteps : ArgumentParser → List Char → ArgumentParser → Prop where
  | nil (st : ArgumentParser) : RunSteps st [] st
  | cons {st st' st'' : ArgumentParser} {c : Char} {cs : List Char} :
      SymbolStep st c st' → RunSteps st' cs st'' → RunSteps st (c :: cs) st''

/-- The whole of `ArgumentParser()(s)` as a relation: run the loop over the
stripped input from a fresh state, inject the final newline, read off the
arguments. -/
def ParseSpec (s : String) (out : List String) : Prop :=
  ∃ st, RunSteps initArgumentParser (pyStrip s.toList) st ∧
    out = (process_token st (Char.ofNat 10)).arguments

/-! ### State carry-over between two calls on one `ArgumentParser` instance

`ArgumentParser.__call__` never resets `self.arguments`, so a second call on
the same instance keeps accumulating. `SimStates A a b` relates a used state
`a` to a fresh-equivalent state `b` whose pending `arguments` differ by the
already-produced prefix `A`; the per-character transition preserves it. -/

def SimStates (A : List String) (a b : ArgumentParser) : Prop :=
  a.buffer = b.buffer ∧ a.quote = b.quote ∧
  prevIsQuote a.curr_token = prevIsQuote b.curr_token ∧
  a.arguments = A ++ b.arguments

/-! ## Theorems -/

theorem symbolStep_total (st : ArgumentParser) (c : Char) :
    SymbolStep st c (consume_symbol st c) := by
  cases hq : st.quote with
  | some q =>
      by_cases hc : c = q
      · have he : consume_symbol st c = process_token st c := by
          unfold consume_symbol; rw [hq]; simp [hc]
        rw [he]; subst hc; exact SymbolStep.quoteClose hq
      · have he : consume_symbol st c = { st with buffer := st.buffer ++ [c] } := by
          unfold consume_symbol; rw [hq]; simp [hc]
        rw [he]; exact SymbolStep.quoteLiteral hq hc
  | none =>
      by_cases hc : c ∈ pytokens
      · have he : consume_symbol st c = process_token st c := by
          unfold consume_symbol; rw [hq]; simp [hc]
        rw [he]; exact SymbolStep.delimiter hq hc
      · have he : consume_symbol st c = { st with buffer := st.buffer ++ [c] } := by
          unfold consume_symbol; rw [hq]; simp [hc]
        rw [he]; exact SymbolStep.plain hq hc

theorem symbolStep_det {st st' : ArgumentParser} {c : Char}
    (h : SymbolStep st c st') : st' = consume_symbol st c := by
  cases h with
  | quoteClose hq => unfold consume_symbol; rw [hq]; simp
  | quoteLiteral hq hne => unfold consume_symbol; rw [hq]; simp [hne]
  | delimiter hq hc => unfold consume_symbol; rw [hq]; simp [hc]
  | plain hq hc => unfold consume_symbol; rw [hq]; simp [hc]

theorem runSteps_total (cs : List Char) (st : ArgumentParser) :
    RunSteps st cs (cs.foldl consume_symbol st) := by
  induction cs generalizing st with
  | nil => exact RunSteps.nil st
  | cons c cs ih => exact RunSteps.cons (symbolStep_total st c) (ih (consume_symbol st c))

theorem runSteps_det {st st' : ArgumentParser} {cs : List Char}
    (h : RunSteps st cs st') : st' = cs.foldl consume_symbol st := by
  induction h with
  | nil st => rfl
  | cons hstep _ ih => rw [ih, symbolStep_det hstep]; rfl

theorem process_token_sim {A : List String} {a b : ArgumentParser} (c : Char)
    (h : SimStates A a b) : SimStates A (process_token a c) (process_token b c) := by
  obtain ⟨hbuf, hquote, hcurr, hargs⟩ := h
  unfold process_token change_token SimStates
  by_cases h1 : c = ' ' || c = Char.ofNat 10
  · simp only [h1, if_true, hcurr]
    by_cases h2 : prevIsQuote b.curr_token
    · simp [h2, hbuf, hargs, hquote]
    · simp only [h2, if_false, Bool.false_eq_true, hbuf]
      by_cases h3 : b.buffer = []
      · simp [h3, hbuf, hargs, hquote]
      · simp [h3, hbuf, hargs, hquote]
  · simp only [h1, if_false, Bool.false_eq_true]
    by_cases h2 : c = dquote || c = squote
    · simp only [h2, if_true, hquote]
      by_cases h3 : b.quote = none
      · simp [h3, hbuf, hargs, hquote]
      · simp [h3, hbuf, hargs, hquote]
    · simp [h2, hbuf, hargs, hquote]

theorem consume_symbol_sim {A : List String} {a b : ArgumentParser} (c : Char)
    (h : SimStates A a b) : SimStates A (consume_symbol a c) (consume_symbol b c) := by
  obtain ⟨hbuf, hquote, hcurr, hargs⟩ := h
  have hsim : SimStates A a b := ⟨hbuf, hquote, hcurr, hargs⟩
  cases hq : b.quote with
  | some q =>
      have ha : a.quote = some q := by rw [hquote, hq]
      by_cases hc : c = q
      · have e1 : consume_symbol a c = process_token a c := by
          unfold consume_symbol; rw [ha]; simp [hc]
        have e2 : consume_symbol b c = process_token b c := by
          unfold consume_symbol; rw [hq]; simp [hc]
        rw [e1, e2]; exact process_token_sim c hsim
      · have e1 : consume_symbol a c = { a with buffer := a.buffer ++ [c] } := by
          unfold consume_symbol; rw [ha]; simp [hc]
        have e2 : consume_symbol b c = { b with buffer := b.buffer ++ [c] } := by
          unfold consume_symbol; rw [hq]; simp [hc]
        rw [e1, e2]
        exact ⟨by simp [hbuf], by simp [hquote], by simp [hcurr], by simp [hargs]⟩
  | none =>
      have ha : a.quote = none := by rw [hquote, hq]
      by_cases hc : c ∈ pytokens
      · have e1 : consume_symbol a c = process_token a c := by
          unfold consume_symbol; rw [ha]; simp [hc]
        have e2 : consume_symbol b c = process_token b c := by
          unfold consume_symbol; rw [hq]; simp [hc]
        rw [e1, e2]; exact process_token_sim c hsim
      · have e1 : consume_symbol a c = { a with buffer := a.buffer ++ [c] } := by
          unfold consume_symbol; rw [ha]; simp [hc]
        have e2 : consume_symbol b c = { b with buffer := b.buffer ++ [c] } := by
          unfold consume_symbol; rw [hq]; simp [hc]
        rw [e1, e2]
        exact ⟨by simp [hbuf], by simp [hquote], by simp [hcurr], by simp [hargs]⟩

theorem foldl_consume_sim {A : List String} (cs : List Char) {a b : ArgumentParser}
    (h : SimStates A a b) :
    SimStates A (cs.foldl consume_symbol a) (cs.foldl consume_symbol b) := by
  induction cs generalizing a b with
  | nil => exact h
  | cons c cs ih => exact ih (consume_symbol_sim c h)

theorem callArgumentParser_sim {A : List String} {a b : ArgumentParser} (s : String)
    (h : SimStates A a b) :
    (callArgumentParser a s).1 = A ++ (callArgumentParser b s).1 := by
  have h2 := process_token_sim (Char.ofNat 10) (foldl_consume_sim (pyStrip s.toList) h)
  exact h2.2.2.2

/-- After any `ArgumentParser.__call__`, the trailing injected newline has
flushed the buffer and become the current token. -/
theorem process_token_newline_state (st : ArgumentParser) :
    (process_token st (Char.ofNat 10)).buffer = [] ∧
    (process_token st (Char.ofNat 10)).curr_token = some (Char.ofNat 10) ∧
    (process_token st (Char.ofNat 10)).quote = st.quote := by
  unfold process_token change_token
  have h1 : (Char.ofNat 10 = ' ' || Char.ofNat 10 = Char.ofNat 10) = true := by decide
  simp only [h1, if_true]
  by_cases h2 : prevIsQuote st.curr_token
  · simp [h2]
  · simp only [h2, if_false, Bool.false_eq_true]
    by_cases h3 : st.buffer = []
    · simp [h3]
    · simp [h3]

/-! ### Namespace construction lemmas -/

theorem cmdIn_iff (ns : List Commandlet) (v : Commandlet) :
    cmdIn ns v = true ↔ v.command ∈ ns.map (fun c => c.command) := by
  simp only [cmdIn, List.any_eq_true, decide_eq_true_eq, List.mem_map]

theorem add_commandlets_append (ns l1 l2 : List Commandlet) :
    add_commandlets ns (l1 ++ l2) = add_commandlets (add_commandlets ns l1) l2 := by
  unfold add_commandlets
  exact List.foldl_append _ _ _ _

theorem add_commandlets_cons (ns : List Commandlet) (v : Commandlet) (l : List Commandlet) :
    add_commandlets ns (v :: l) =
      add_commandlets (if cmdIn ns v then ns else ns ++ [v]) l := rfl

mutual
theorem get_commandlets_eq (t : ClassTree) (ns : List Commandlet) :
    get_commandlets t ns = add_commandlets ns (walk_order t) := by
  cases t with
  | node own bases =>
      rw [get_commandlets, walk_order, add_commandlets_append]
      exact get_commandlets_bases_eq bases (add_commandlets ns own)

theorem get_commandlets_bases_eq (bs : List ClassTree) (ns : List Commandlet) :
    get_commandlets_bases bs ns = add_commandlets ns (walk_order_bases bs) := by
  cases bs with
  | nil => rw [get_commandlets_bases, walk_order_bases]; rfl
  | cons b bs =>
      rw [get_commandlets_bases, walk_order_bases, add_commandlets_append,
        get_commandlets_eq b]
      exact get_commandlets_bases_eq bs (add_commandlets ns (walk_order b))
end

theorem add_commandlets_nodup (l : List Commandlet) (ns : List Commandlet)
    (h : (ns.map (fun c => c.command)).Nodup) :
    ((add_commandlets ns l).map (fun c => c.command)).Nodup := by
  induction l generalizing ns with
  | nil => exact h
  | cons v l ih =>
      rw [add_commandlets_cons]
      by_cases hc : cmdIn ns v
      · rw [if_pos hc]; exact ih ns h
      · rw [if_neg hc]
        apply ih
        have hnm : v.command ∉ ns.map (fun c => c.command) :=
          fun hmem => hc ((cmdIn_iff ns v).mpr hmem)
        simp [List.nodup_append, h, hnm]

theorem find?_add_commandlets (l ns : List Commandlet) (n : String) :
    (add_commandlets ns l).find? (fun c => c.command == n) =
      (ns ++ l).find? (fun c => c.command == n) := by
  induction l generalizing ns with
  | nil => rw [List.append_nil]; rfl
  | cons v l ih =>
      rw [add_commandlets_cons]
      by_cases hc : cmdIn ns v
      · rw [if_pos hc, ih]
        by_cases hv : v.command = n
        · have hmem : v.command ∈ ns.map (fun c => c.command) := (cmdIn_iff ns v).mp hc
          have hsome : (ns.find? (fun c => c.command == n)).isSome := by
            rw [List.find?_isSome]
            obtain ⟨x, hx, hxc⟩ := List.mem_map.mp hmem
            exact ⟨x, hx, by simp [hxc, hv]⟩
          obtain ⟨w, hw⟩ := Option.isSome_iff_exists.mp hsome
          rw [List.find?_append, List.find?_append, hw]
          simp [Option.or]
        · rw [List.find?_append, List.find?_append, List.find?_cons_of_neg]
          simp [hv]
      · rw [if_neg hc, ih, List.append_assoc]
        rfl

/-! ### Lookup lemmas -/

theorem lookup_command_not_found (ns : List Commandlet) (n : String)
    (h : ∀ c ∈ ns, c.command ≠ n) : lookup_command ns n = Except.error n := by
  induction ns with
  | nil => rfl
  | cons c rest ih =>
      rw [lookup_command, if_neg (h c (List.mem_cons_self c rest))]
      exact ih fun x hx => h x (List.mem_cons_of_mem c hx)

theorem lookup_command_first_match (ns : List Commandlet) (n : String) (c : Commandlet)
    (h : ns.find? (fun x => x.command == n) = some c) :
    lookup_command ns n = Except.ok c := by
  induction ns with
  | nil => simp [List.find?] at h
  | cons v rest ih =>
      by_cases hv : v.command = n
      · rw [List.find?_cons_of_pos _ (by simp [hv])] at h
        injection h with h
        rw [lookup_command, if_pos hv, h]
      · rw [List.find?_cons_of_neg _ (by simp [hv])] at h
        rw [lookup_command, if_neg hv]
        exact ih h

/-! ### Further helper lemmas -/

theorem callCommandlet_no_kwargs {V R : Type} (c : Commandlet)
    (g : List V → List (String × V) → R) (args : List V) :
    callCommandlet c g args [] =
      if (args.length : Int) > c.arguments_max then
        CallResult.incorrectArguments "exceeded maximum number of arguments"
      else if (args.length : Int) < c.arguments_min then
        CallResult.incorrectArguments "not enough arguments"
      else CallResult.ok (g args []) := by
  unfold callCommandlet
  simp [List.find?]

theorem pyStrip_eq_nil (cs : List Char) (h : cs.all isPySpace = true) :
    pyStrip cs = [] := by
  unfold pyStrip
  have h1 : cs.dropWhile isPySpace = [] :=
    List.dropWhile_eq_nil_iff.mpr fun x hx => List.all_eq_true.mp h x hx
  rw [h1]
  rfl

theorem defaultNamespace_eq : defaultNamespace = [helpCommandlet, exitCommandlet] := rfl

/-! ## Claim theorems -/

/-- C1: the spec's ordinal-uniqueness invariant fails in the code:
`Command.set_number` never adds the chosen ordinal to the class-level
`number_used` set, so the probe loop can never fire. Creating one descriptor
with an auto-assigned ordinal and then one explicitly requesting ordinal 0
hands out the ordinal 0 twice, and the used-set is still empty afterwards,
contradicting "an explicitly requested ordinal that collides ... is advanced
upward" and "every chosen ordinal is added to the process-wide used-set". -/
theorem command_ordinal_duplicated :
    (allocate_numbers initCommandState [none, some 0]).1 = [0, 0] ∧
    (allocate_numbers initCommandState [none, some 0]).2.number_used = [] := by
  constructor <;>
    simp [allocate_numbers, set_number, set_number_loop, initCommandState]

/-- C5: parsing the test line of `TestArgumentParser.test_call__` (single
quotes written via `squote`) with a fresh tokenizer returns exactly the
expected five tokens. -/
theorem tokenizer_test_vector :
    parseArguments testInput =
      ["test", "", "with space",
       String.mk ("with \"space and different\" quote".toList), "case"] := by decide

/-- C3 counterexample: in the code a closing quote does not immediately
finalize the buffer, so a double-quoted `x` followed directly by the
non-delimiter `c` merges into the single token `xc` instead of the two
tokens the claim predicts. -/
theorem quote_close_merges_following_text :
    parseArguments (String.mk [dquote, 'x', dquote, 'c']) = ["xc"] := by decide

/-- C3 amended: a character equal to the open quote closes the quote but
leaves the buffer and the results untouched; the buffered text is finalized
at the next unquoted space/newline, where it is appended unconditionally
(even if empty) because the previous delimiter was a quote. -/
theorem quote_close_defers_flush (st : ArgumentParser) (q d : Char)
    (hq : st.quote = some q) (hqc : q = dquote ∨ q = squote)
    (hd : d = ' ' ∨ d = Char.ofNat 10) :
    (consume_symbol st q).quote = none ∧
    (consume_symbol st q).buffer = st.buffer ∧
    (consume_symbol st q).arguments = st.arguments ∧
    (consume_symbol (consume_symbol st q) d).arguments =
      st.arguments ++ [String.mk st.buffer] := by
  have hq1 : (q = ' ' || q = Char.ofNat 10) = false := by
    rcases hqc with rfl | rfl <;> decide
  have hq2 : (q = dquote || q = squote) = true := by
    rcases hqc with rfl | rfl <;> decide
  have e1 : consume_symbol st q =
      { st with prev_token := st.curr_token, curr_token := some q, quote := none } := by
    unfold consume_symbol
    rw [hq]
    simp only [if_pos rfl]
    unfold process_token change_token
    simp [hq1, hq2, hq]
  have hd1 : (d = ' ' || d = Char.ofNat 10) = true := by
    rcases hd with rfl | rfl <;> decide
  have hdmem : d ∈ pytokens := by
    rcases hd with rfl | rfl <;> decide
  have hpq : prevIsQuote (some q) = true := by
    rcases hqc with rfl | rfl <;> decide
  refine ⟨by rw [e1], by rw [e1], by rw [e1], ?_⟩
  rw [e1]
  unfold consume_symbol
  simp only [hdmem, if_pos, if_true]
  unfold process_token change_token
  simp [hd1, hpq]

/-- C9 counterexample: reusing one `ArgumentParser` instance carries the
accumulated `arguments` over: after parsing `a`, parsing `b` on the same
instance returns `(a, b)` while a fresh instance returns `(b,)`. -/
theorem parser_reuse_counterexample :
    (callArgumentParser (callArgumentParser initArgumentParser "a").2 "b").1 = ["a", "b"] ∧
    parseArguments "b" = ["b"] := by
  constructor <;> decide

/-- C9 amended: within `Mode`, tokenizer state is per-line because
`get_user_input` constructs a fresh `ArgumentParser` for each line; on a
reused instance the state carries over, and when the first call left no
quote open the second call returns the first call's tokens followed by the
fresh parse of the second input. -/
theorem parser_reuse_appends (s1 s2 : String)
    (h : (callArgumentParser initArgumentParser s1).2.quote = none) :
    (callArgumentParser (callArgumentParser initArgumentParser s1).2 s2).1 =
      parseArguments s1 ++ parseArguments s2 := by
  have hfields := process_token_newline_state
    ((pyStrip s1.toList).foldl consume_symbol initArgumentParser)
  have hsim : SimStates (parseArguments s1)
      (callArgumentParser initArgumentParser s1).2 initArgumentParser := by
    refine ⟨hfields.1, h, ?_, ?_⟩
    · rw [show (callArgumentParser initArgumentParser s1).2.curr_token =
          some (Char.ofNat 10) from hfields.2.1]
      decide
    · show (callArgumentParser initArgumentParser s1).2.arguments = parseArguments s1 ++ []
      rw [List.append_nil]
      rfl
  have hcall := callArgumentParser_sim s2 hsim
  exact hcall

/-- C9 amended, instantiated: reuse after a quote-closed first parse. -/
theorem parser_reuse_appends_witness :
    (callArgumentParser (callArgumentParser initArgumentParser "x y").2 "z").1 =
      parseArguments "x y" ++ parseArguments "z" :=
  parser_reuse_appends "x y" "z" (by decide)

/-- C3 amended, instantiated at a state holding a buffered `x` inside an
open double quote. -/
theorem quote_close_defers_flush_witness :
    (consume_symbol argStateEx dquote).quote = none ∧
    (consume_symbol argStateEx dquote).buffer = argStateEx.buffer ∧
    (consume_symbol argStateEx dquote).arguments = argStateEx.arguments ∧
    (consume_symbol (consume_symbol argStateEx dquote) ' ').arguments =
      argStateEx.arguments ++ [String.mk argStateEx.buffer] :=
  quote_close_defers_flush argStateEx dquote ' ' rfl (Or.inl rfl) (Or.inl rfl)

/-- C6: the tokenizer is total and deterministic: for every input string the
relational semantics of `ArgumentParser.__call__` produces exactly the tuple
computed by `parseArguments`, and nothing else. -/
theorem parse_total_deterministic (s : String) :
    ParseSpec s (parseArguments s) ∧ ∀ out, ParseSpec s out → out = parseArguments s := by
  constructor
  · exact ⟨(pyStrip s.toList).foldl consume_symbol initArgumentParser,
      runSteps_total _ _, rfl⟩
  · rintro out ⟨st, hrun, hout⟩
    subst hout
    rw [runSteps_det hrun]
    rfl

/-- C6, instantiated: the relational semantics accepts the computed parse of
a concrete line. -/
theorem parse_total_deterministic_witness : ParseSpec "a b" ["a", "b"] := by
  have h := (parse_total_deterministic "a b").1
  have e : parseArguments "a b" = ["a", "b"] := by decide
  rw [e] at h
  exact h

/-- C7: the namespace built by `Mode.build_namespace` holds at most one
commandlet per `command` name (equality and hash are name-only), and for
every name the retained entry is the first one encountered in the walk over
the class and its ancestors. -/
theorem build_namespace_unique_by_name (t : ClassTree) :
    ((build_namespace t).map (fun c => c.command)).Nodup ∧
    ∀ n : String, (build_namespace t).find? (fun c => c.command == n) =
      (walk_order t).find? (fun c => c.command == n) := by
  constructor
  · rw [build_namespace, get_commandlets_eq]
    exact add_commandlets_nodup _ [] (by simp)
  · intro n
    rw [build_namespace, get_commandlets_eq, find?_add_commandlets]
    rfl

/-- C8: a typed command name matching no namespace entry makes
`lookup_command` raise `IncorrectCommand` carrying exactly the typed text,
the main loop catches it, prints the one-line diagnostic and continues; and
whenever `find?` locates a first matching entry, `lookup_command` returns
exactly that entry. -/
theorem mode_command_not_found_recovers (ns : List Commandlet)
    (run : Commandlet → List String → FuncOutcome) (line : String)
    (h : ∀ c ∈ ns, c.command ≠ (parse_user_input line).1) :
    lookup_command ns (parse_user_input line).1 =
        Except.error (parse_user_input line).1 ∧
    mode_iteration ns run line =
        LoopStep.continued ["Incorrect command: " ++ (parse_user_input line).1] ∧
    ∀ (ns2 : List Commandlet) (n : String) (c : Commandlet),
      ns2.find? (fun x => x.command == n) = some c →
      lookup_command ns2 n = Except.ok c := by
  have hl := lookup_command_not_found ns _ h
  refine ⟨hl, ?_, fun ns2 n c hf => lookup_command_first_match ns2 n c hf⟩
  simp only [mode_iteration]
  rw [hl]

/-- C8, instantiated on the default namespace and an unregistered name. -/
theorem mode_command_not_found_recovers_witness :
    mode_iteration defaultNamespace (fun _ _ => FuncOutcome.ret) "frobnicate" =
      LoopStep.continued ["Incorrect command: frobnicate"] := by
  have h := (mode_command_not_found_recovers defaultNamespace
    (fun _ _ => FuncOutcome.ret) "frobnicate" (by decide)).2.1
  have e : (parse_user_input "frobnicate").1 = "frobnicate" := by decide
  rw [e] at h
  exact h

/-- C10: an empty or whitespace-only input line is not a silent no-op: the
command name parsed from it is the empty string, its arguments are empty,
and (when no command is registered under the empty name, as in the default
namespace) the iteration prints the incorrect-command diagnostic and
continues. -/
theorem whitespace_line_diagnostic (ns : List Commandlet)
    (run : Commandlet → List String → FuncOutcome) (line : String)
    (hline : line.toList.all isPySpace = true)
    (hns : ∀ c ∈ ns, c.command ≠ "") :
    (parse_user_input line).1 = "" ∧ (parse_user_input line).2 = [] ∧
    mode_iteration ns run line = LoopStep.continued ["Incorrect command: "] := by
  have hstrip : pyStrip line.toList = [] := pyStrip_eq_nil _ hline
  have hp : parse_user_input line = ("", []) := by
    unfold parse_user_input
    rw [hstrip]
    rfl
  have hlook : lookup_command ns "" = Except.error "" := lookup_command_not_found ns "" hns
  refine ⟨by rw [hp], by rw [hp], ?_⟩
  simp [mode_iteration, hp, hlook]

/-- C2: for a commandlet wrapped from a callable with a receiver parameter
(`argcount ≥ 1`, parameter names a prefix of `co_varnames`, defaults only on
non-receiver parameters), the spec's receiver-excluded arity bounds satisfy
`min_arity ≤ max_arity`, `max_arity` = declared parameter count minus one,
`min_arity` = `max_arity` minus the default count; and invoking the
commandlet as the `Mode` loop does (receiver plus user arguments) passes the
arity gate exactly when the user-argument count lies in
`[min_arity, max_arity]`. -/
theorem commandlet_arity_bounds (command : String) (number : Int) (f : PyFunc)
    (h1 : 1 ≤ f.argcount) (h2 : f.argcount ≤ f.varnames.length)
    (h3 : f.defaults.getD 0 ≤ f.argcount - 1) :
    min_arity (mkCommandlet command number f) ≤ max_arity (mkCommandlet command number f) ∧
    max_arity (mkCommandlet command number f) = (f.argcount : Int) - 1 ∧
    min_arity (mkCommandlet command number f) =
      max_arity (mkCommandlet command number f) - (f.defaults.getD 0 : Int) ∧
    ∀ (V R : Type) (g : List V → List (String × V) → R) (recv : V) (userArgs : List V),
      callCommandlet (mkCommandlet command number f) g (recv :: userArgs) [] =
          CallResult.ok (g (recv :: userArgs) []) ↔
        min_arity (mkCommandlet command number f) ≤ (userArgs.length : Int) ∧
          (userArgs.length : Int) ≤ max_arity (mkCommandlet command number f) := by
  have hlen : (f.varnames.take f.argcount).length = f.argcount := by
    rw [List.length_take]
    exact Nat.min_eq_left h2
  have hmax : (mkCommandlet command number f).arguments_max = (f.argcount : Int) := by
    simp [mkCommandlet, hlen]
  have hmin : (mkCommandlet command number f).arguments_min =
      (f.argcount : Int) - (f.defaults.getD 0 : Int) := by
    cases hd : f.defaults with
    | none => simp [mkCommandlet, hlen, hd]
    | some d => simp [mkCommandlet, hlen, hd]
  have hMa : max_arity (mkCommandlet command number f) = (f.argcount : Int) - 1 := by
    rw [max_arity, hmax]
  have hMi : min_arity (mkCommandlet command number f) =
      (f.argcount : Int) - (f.defaults.getD 0 : Int) - 1 := by
    rw [min_arity, hmin]
  refine ⟨?_, hMa, ?_, ?_⟩
  · rw [hMa, hMi]
    omega
  · rw [hMa, hMi]
    ring
  · intro V R g recv userArgs
    rw [callCommandlet_no_kwargs, hmax, hmin, hMa, hMi]
    simp only [List.length_cons]
    push_cast
    split_ifs with hb1 hb2
    · constructor
      · intro hcontra
        exact absurd hcontra (by simp)
      · intro hb
        exfalso
        omega
    · constructor
      · intro hcontra
        exact absurd hcontra (by simp)
      · intro hb
        exfalso
        omega
    · constructor
      · intro _
        constructor <;> omega
      · intro _
        rfl

/-- C2, instantiated on a three-parameter callable with one default. -/
theorem commandlet_arity_bounds_witness :
    min_arity exCommandlet ≤ max_arity exCommandlet ∧
    max_arity exCommandlet = (3 : Int) - 1 ∧
    min_arity exCommandlet = max_arity exCommandlet - (1 : Int) := by
  have h := commandlet_arity_bounds "g" 5
    { varnames := ["self", "x", "y"], argcount := 3, defaults := some 1 }
    (by decide) (by decide) (by decide)
  exact ⟨h.1, h.2.1, h.2.2.1⟩

/-- C4 counterexample: the keyword name `self` is in `self.arguments`, so
the validation accepts it and the underlying callable is invoked — no
`IncorrectArguments` (`UnknownArgumentError`) is raised, contrary to the
claim. -/
theorem kwargs_self_key_invoked :
    callCommandlet selfKwargCommandlet
        (fun (a : List Nat) (k : List (String × Nat)) => (a, k)) [0] [("self", 1)] =
      CallResult.ok ([0], [("self", 1)]) := by decide

/-- C4 amended: keyword names are validated against the full declared
parameter tuple `self.arguments`, receiver included (so the receiver's own
name passes the check): with the passed count in range, the callable is
invoked with its result returned unchanged when every keyword name is
declared, and otherwise the first undeclared keyword name raises the
wrong-keyword-argument error naming it. -/
theorem kwargs_validated_against_all_parameters {V R : Type} (c : Commandlet)
    (g : List V → List (String × V) → R) (args : List V) (kwargs : List (String × V))
    (hmin : c.arguments_min ≤ (args.length : Int) + kwargs.length)
    (hmax : (args.length : Int) + kwargs.length ≤ c.arguments_max) :
    ((∀ kv ∈ kwargs, kv.1 ∈ c.arguments) →
        callCommandlet c g args kwargs = CallResult.ok (g args kwargs)) ∧
    ∀ (pre post : List (String × V)) (k : String) (v : V),
      kwargs = pre ++ (k, v) :: post → k ∉ c.arguments →
      (∀ kv ∈ pre, kv.1 ∈ c.arguments) →
      callCommandlet c g args kwargs =
        CallResult.incorrectArguments ("wrong keyword argument: " ++ k) := by
  have e : callCommandlet c g args kwargs =
      (match kwargs.find? (fun kv => !(c.arguments.contains kv.1)) with
       | some kv => CallResult.incorrectArguments ("wrong keyword argument: " ++ kv.1)
       | none => CallResult.ok (g args kwargs)) := by
    unfold callCommandlet
    rw [if_neg (by push_cast; omega), if_neg (by push_cast; omega)]
  constructor
  · intro hall
    have hfind : kwargs.find? (fun kv => !(c.arguments.contains kv.1)) = none := by
      rw [List.find?_eq_none]
      intro kv hkv
      simp
      exact hall kv hkv
    rw [e, hfind]
  · intro pre post k v hkw hk hpre
    have hfind : kwargs.find? (fun kv => !(c.arguments.contains kv.1)) = some (k, v) := by
      subst hkw
      rw [List.find?_append]
      have hpre2 : pre.find? (fun kv => !(c.arguments.contains kv.1)) = none := by
        rw [List.find?_eq_none]
        intro kv hkv
        simp
        exact hpre kv hkv
      rw [hpre2, List.find?_cons_of_pos _ (by simp [hk])]
      rfl
    rw [e, hfind]

/-- C4 amended, instantiated: `help`'s declared keyword `command_name` is
accepted and the callable invoked. -/
theorem kwargs_validated_witness :
    callCommandlet helpCommandlet
        (fun (a : List String) (k : List (String × String)) => (a, k))
        ["recv"] [("command_name", "exit")] =
      CallResult.ok (["recv"], [("command_name", "exit")]) :=
  (kwargs_validated_against_all_parameters helpCommandlet
    (fun (a : List String) (k : List (String × String)) => (a, k))
    ["recv"] [("command_name", "exit")] (by decide) (by decide)).1 (by decide)

/-- C10, instantiated on a three-space line and the default namespace. -/
theorem whitespace_line_diagnostic_witness :
    mode_iteration defaultNamespace (fun _ _ => FuncOutcome.ret) "   " =
      LoopStep.continued ["Incorrect command: "] :=
  (whitespace_line_diagnostic defaultNamespace (fun _ _ => FuncOutcome.ret) "   "
    (by decide) (by decide)).2.2
